import Mathlib

/-!
Formal model of two components of the repository:

1. `ExecutorFactory` from
   src/src/plugins/intel_cpu/src/nodes/executors/executor_factory.hpp
   (candidate filtering, construction, getProperMemoryDescriptors, make).

2. The TopK v11 to v3 downgrade rewrite from
   src/src/common/transformations/src/transformations/op_conversions/convert_topk11_downgrade.cpp
   (matcher callback, node replacement, pass iteration).

The executor model is generic over the attribute type `Attrs`, the memory
descriptor arguments type `Descs` (MemoryDescArgs), the memory format
filter type `Fmt` (MemoryFormatFilter), the realized memory arguments type
`Mem` (MemoryArgs), the executor context type `Ctx` and the kernel executor
handle type `Exec`. The registry (getImplementations in the source, a
process-wide static list) is passed in explicitly as a list in priority
order. C++ exceptions (OPENVINO_ASSERT) are modelled by `Option`.
-/

section ExecutorModel

variable {Attrs Descs Fmt Mem Ctx Exec : Type}

/-- executor::Config from executor_config.hpp: a snapshot pairing memory
descriptors with an attribute instance. -/
structure ExecConfig (Attrs Descs : Type) where
  descs : Descs
  attrs : Attrs

/-- ExecutorImplementation from executor_implementation.hpp: an immutable
registry entry with a name, a support predicate over (config, format
filter), a shape-agnostic flag, a fallback predicate returning an optional
fallback config, and a factory from (attrs, memory, context) to an
executor handle. -/
structure ExecutorImplementation (Attrs Descs Fmt Mem Ctx Exec : Type) where
  name : String
  supports : ExecConfig Attrs Descs → Fmt → Bool
  shapeAgnostic : Bool
  requiresFallback : ExecConfig Attrs Descs → Option (ExecConfig Attrs Descs)
  create : Attrs → Mem → Ctx → Exec

/-- The three executor shapes produced by ExecutorFactory::make.
Fallback records the arguments passed to GraphEmitter::fallback (realized
config, fallback config, memory, context, implementation name); Variable
records the arguments of the VariableExecutor constructor. -/
inductive Executor (Attrs Descs Fmt Mem Ctx Exec : Type) where
  | Simple (e : Exec)
  | Fallback (config fallbackConfig : ExecConfig Attrs Descs) (memory : Mem)
      (context : Ctx) (name : String)
  | Variable (memory : Mem) (attrs : Attrs) (context : Ctx)
      (impls : List (ExecutorImplementation Attrs Descs Fmt Mem Ctx Exec))

/-- Whether an executor is the Variable (deferred-choice) shape. -/
def Executor.isVariable : Executor Attrs Descs Fmt Mem Ctx Exec → Bool
  | .Variable _ _ _ _ => true
  | _ => false

/-- The loop body of ExecutorFactory::filter: iterate the registry in
priority order; skip an entry when a non-empty implementationPriority does
not match its name; skip an entry whose support predicate rejects the
config and filter; otherwise append it, and stop the whole iteration when
the appended entry is shape agnostic (the `break` in the source). -/
def ExecutorFactory.filterLoop (config : ExecConfig Attrs Descs)
    (memoryFormatFilter : Fmt) (implementationPriority : String) :
    List (ExecutorImplementation Attrs Descs Fmt Mem Ctx Exec) →
    List (ExecutorImplementation Attrs Descs Fmt Mem Ctx Exec)
  | [] => []
  | implementation :: rest =>
    if implementationPriority ≠ "" ∧ implementation.name ≠ implementationPriority then
      ExecutorFactory.filterLoop config memoryFormatFilter implementationPriority rest
    else if ¬ (implementation.supports config memoryFormatFilter = true) then
      ExecutorFactory.filterLoop config memoryFormatFilter implementationPriority rest
    else if implementation.shapeAgnostic then
      [implementation]
    else
      implementation ::
        ExecutorFactory.filterLoop config memoryFormatFilter implementationPriority rest

/-- ExecutorFactory::filter: builds the config from descs and attrs and
runs the priority-order loop over the registry (`implementations`, which
the source obtains from getImplementations). -/
def ExecutorFactory.filter
    (implementations : List (ExecutorImplementation Attrs Descs Fmt Mem Ctx Exec))
    (attrs : Attrs) (descs : Descs) (memoryFormatFilter : Fmt)
    (implementationPriority : String) :
    List (ExecutorImplementation Attrs Descs Fmt Mem Ctx Exec) :=
  ExecutorFactory.filterLoop ⟨descs, attrs⟩ memoryFormatFilter implementationPriority
    implementations

/-- The state of a successfully constructed ExecutorFactory. -/
structure ExecutorFactory (Attrs Descs Fmt Mem Ctx Exec : Type) where
  m_attrs : Attrs
  m_context : Ctx
  m_suitableImplementations :
    List (ExecutorImplementation Attrs Descs Fmt Mem Ctx Exec)

/-- The ExecutorFactory constructor: filters the registry and fails
(OPENVINO_ASSERT, modelled as `none`) exactly when no suitable
implementation is found. -/
def ExecutorFactory.construct
    (implementations : List (ExecutorImplementation Attrs Descs Fmt Mem Ctx Exec))
    (attrs : Attrs) (context : Ctx) (descriptors : Descs)
    (memoryFormatFilter : Fmt) (implementationPriority : String) :
    Option (ExecutorFactory Attrs Descs Fmt Mem Ctx Exec) :=
  let suitable := ExecutorFactory.filter implementations attrs descriptors
    memoryFormatFilter implementationPriority
  if suitable.isEmpty then none
  else some { m_attrs := attrs, m_context := context, m_suitableImplementations := suitable }

/-- ExecutorFactory::getProperMemoryDescriptors: builds a config from the
given descriptors and the stored attrs, and for each candidate returns the
descs of its fallback config when the fallback predicate requests one, and
the original descriptors otherwise. A pure query with no mutation. -/
def ExecutorFactory.getProperMemoryDescriptors
    (f : ExecutorFactory Attrs Descs Fmt Mem Ctx Exec) (descriptors : Descs) :
    List Descs :=
  let config : ExecConfig Attrs Descs := ⟨descriptors, f.m_attrs⟩
  let getProperMemoryDescArgs :=
    fun (impl : ExecutorImplementation Attrs Descs Fmt Mem Ctx Exec)
        (config : ExecConfig Attrs Descs) =>
      match impl.requiresFallback config with
      | some fallbackConfig => fallbackConfig.descs
      | none => config.descs
  f.m_suitableImplementations.map (fun impl => getProperMemoryDescArgs impl config)

/-- ExecutorFactory::make: with exactly one candidate, builds the realized
config (GraphEmitter::createConfig, abstracted by `memToDescs`) and
returns a Fallback executor when the fallback predicate requests one and a
Simple executor from the candidate factory otherwise; with any other
number of candidates returns a Variable executor over the whole candidate
list. -/
def ExecutorFactory.make (memToDescs : Mem → Descs)
    (f : ExecutorFactory Attrs Descs Fmt Mem Ctx Exec) (memory : Mem) :
    Executor Attrs Descs Fmt Mem Ctx Exec :=
  match f.m_suitableImplementations with
  | [theOnlyImplementation] =>
    let config : ExecConfig Attrs Descs := ⟨memToDescs memory, f.m_attrs⟩
    match theOnlyImplementation.requiresFallback config with
    | some fallbackConfig =>
      .Fallback config fallbackConfig memory f.m_context theOnlyImplementation.name
    | none =>
      .Simple (theOnlyImplementation.create f.m_attrs memory f.m_context)
  | _ => .Variable memory f.m_attrs f.m_context f.m_suitableImplementations

end ExecutorModel

section TopKModel

/-- TopK mode (opset TopKMode: MAX or MIN). -/
inductive TopKMode where
  | max
  | min
deriving DecidableEq

/-- TopK sort type (opset TopKSortType: NONE, SORT_INDICES, SORT_VALUES). -/
inductive TopKSortType where
  | none
  | sortIndices
  | sortValues
deriving DecidableEq

/-- A value edge: the producing node id together with its output port,
modelling ov::Output of Node as used by input_value. -/
structure ValueRef where
  node : Nat
  port : Nat
deriving DecidableEq

/-- The operation carried by a node. TopK11 is opset11::TopK (with the
version-11-only stable flag); TopK3 is opset3::TopK (which has no stable
attribute); Other stands for any other operation kind. The index element
type is modelled as an opaque numeric tag. -/
inductive OpKind where
  | TopK11 (axis : Int) (mode : TopKMode) (sortType : TopKSortType)
      (indexElementType : Nat) (stable : Bool)
  | TopK3 (axis : Int) (mode : TopKMode) (sortType : TopKSortType)
      (indexElementType : Nat)
  | Other (tag : Nat)
deriving DecidableEq

/-- A graph node: identity, operation, ordered input value references,
friendly name and runtime-info (provenance) map. -/
structure Node where
  id : Nat
  op : OpKind
  inputs : List ValueRef
  friendlyName : String
  rtInfo : List (String × String)
deriving DecidableEq

/-- A graph is the list of its nodes (consumer edges live in the inputs of
each node). -/
abbrev Graph := List Node

/-- The attribute bag read off an opset11::TopK node by the callback. -/
structure TopK11Fields where
  axis : Int
  mode : TopKMode
  sortType : TopKSortType
  indexElementType : Nat
  stable : Bool
deriving DecidableEq

/-- std::dynamic_pointer_cast to opset11::TopK: succeeds exactly on a
TopK11 node and yields its attributes. -/
def Node.asTopK11 (n : Node) : Option TopK11Fields :=
  match n.op with
  | .TopK11 a m s t st => some ⟨a, m, s, t, st⟩
  | _ => none

/-- The largest node id present in a graph. -/
def maxId (g : Graph) : Nat := g.foldr (fun n acc => Nat.max n.id acc) 0

/-- An id not used by any node of the graph, for replacement nodes. -/
def freshId (g : Graph) : Nat := maxId g + 1

/-- Rewiring of a single value reference: a reference to oldId is moved to
the same port of newId; any other reference is untouched. -/
def redirect (oldId newId : Nat) (r : ValueRef) : ValueRef :=
  if r.node = oldId then { node := newId, port := r.port } else r

/-- Rewiring of one consumer node: every input referencing oldId now
references newId. -/
def rewireNode (oldId newId : Nat) (m : Node) : Node :=
  { m with inputs := m.inputs.map (redirect oldId newId) }

/-- ov::replace_node(old, new) followed by the disappearance of the old
node: every consumer edge referencing the old node is rewired to the
replacement, the old node leaves the graph, the replacement joins it. -/
def replaceNode (g : Graph) (old new : Node) : Graph :=
  (g.filter (fun m => m.id ≠ old.id)).map (rewireNode old.id new.id) ++ [new]

/-- The replacement node built by the callback: an opset3::TopK from the
first two input values of the matched node and its axis, mode, sort type
and index element type; the friendly name is set from the original
(set_friendly_name) and the runtime info copied (copy_runtime_info). The
stable flag is not carried: the TopK3 operation has no such field. -/
def makeTopK3Node (g : Graph) (topk_v11 : Node) (f : TopK11Fields) : Node :=
  { id := freshId g
    op := .TopK3 f.axis f.mode f.sortType f.indexElementType
    inputs := topk_v11.inputs.take 2
    friendlyName := topk_v11.friendlyName
    rtInfo := topk_v11.rtInfo }

/-- The matcher callback of ConvertTopK11ToTopK3 applied to a matched
node m of graph g: decline (false, unchanged graph) when the cast to
opset11::TopK fails, when get_stable() holds, or when the externally
supplied transformation callback vetoes; otherwise build the opset3::TopK
replacement, replace the node and report true. -/
def applyCallback (transformationCallback : Node → Bool) (g : Graph) (m : Node) :
    Bool × Graph :=
  match m.asTopK11 with
  | none => (false, g)
  | some f =>
    if f.stable || transformationCallback m then (false, g)
    else
      let topk_v3 := makeTopK3Node g m f
      (true, replaceNode g m topk_v3)

/-- Whether the callback declines a node: failed cast, stable flag, or
veto. -/
def declinedNode (transformationCallback : Node → Bool) (n : Node) : Bool :=
  match n.asTopK11 with
  | none => true
  | some f => f.stable || transformationCallback n

/-- The GraphRewrite driver loop: visit the recorded node ids in order;
each node still in the graph is run through the matcher callback in its
then-current, already-rewired state (a node replaced earlier in the sweep
is gone and is skipped). The id list is the snapshot the driver takes at
sweep start, in the order get_ordered_ops returns: topological, producers
before consumers. The idempotence theorem states that order as a
hypothesis on the graph list. -/
def runPassGo (transformationCallback : Node → Bool) : List Nat → Graph → Graph
  | [], g => g
  | i :: rest, g =>
    match g.find? (fun nd => nd.id == i) with
    | .none => runPassGo transformationCallback rest g
    | .some m =>
      runPassGo transformationCallback rest
        (applyCallback transformationCallback g m).2

/-- One full sweep of the pass over a graph (GraphRewrite over
get_ordered_ops): the callback is applied to every node present when the
sweep starts, in the order of the graph list, which mirrors the
topological order get_ordered_ops returns when the graph is well formed
(producers listed before consumers). -/
def runPass (transformationCallback : Node → Bool) (g : Graph) : Graph :=
  runPassGo transformationCallback (g.map (fun n => n.id)) g

end TopKModel

section Fixtures

/-- Fixture: an always-supported, not shape-agnostic implementation with
no fallback. -/
def implPlain : ExecutorImplementation Unit Nat Unit Nat Unit Unit :=
  { name := "plain", supports := fun _ _ => true, shapeAgnostic := false,
    requiresFallback := fun _ => none, create := fun _ _ _ => () }

/-- Fixture: a second always-supported implementation. -/
def implSecond : ExecutorImplementation Unit Nat Unit Nat Unit Unit :=
  { name := "second", supports := fun _ _ => true, shapeAgnostic := false,
    requiresFallback := fun _ => none, create := fun _ _ _ => () }

/-- Fixture: the factory state produced from the two-entry registry. -/
def fW : ExecutorFactory Unit Nat Unit Nat Unit Unit :=
  { m_attrs := (), m_context := (),
    m_suitableImplementations := [implPlain, implSecond] }

/-- Fixture (spec scenario): implementation A supports only format 1. -/
def implA : ExecutorImplementation Unit Nat Nat Nat Unit Unit :=
  { name := "A", supports := fun _ fmt => fmt == 1, shapeAgnostic := false,
    requiresFallback := fun _ => none, create := fun _ _ _ => () }

/-- Fixture (spec scenario): implementation B supports every format and is
shape agnostic. -/
def implB : ExecutorImplementation Unit Nat Nat Nat Unit Unit :=
  { name := "B", supports := fun _ _ => true, shapeAgnostic := true,
    requiresFallback := fun _ => none, create := fun _ _ _ => () }

/-- Fixture (spec scenario): implementation C supports only format 2. -/
def implC : ExecutorImplementation Unit Nat Nat Nat Unit Unit :=
  { name := "C", supports := fun _ fmt => fmt == 2, shapeAgnostic := false,
    requiresFallback := fun _ => none, create := fun _ _ _ => () }

/-- Fixture: a TopK11 node with the stable flag set. -/
def nodeStable : Node :=
  { id := 1, op := .TopK11 0 .max .none 0 true, inputs := [],
    friendlyName := "t", rtInfo := [] }

/-- Fixture: a producer node of some other operation kind. -/
def nodeParam : Node :=
  { id := 0, op := .Other 0, inputs := [], friendlyName := "p", rtInfo := [] }

/-- Fixture: an unstable TopK11 node consuming the producer. -/
def nodeTopK : Node :=
  { id := 1, op := .TopK11 0 .max .none 0 false,
    inputs := [⟨0, 0⟩, ⟨0, 1⟩], friendlyName := "t", rtInfo := [("k", "v")] }

/-- Fixture: a two-node graph with one rewritable TopK11 node. -/
def gW : Graph := [nodeParam, nodeTopK]

/-- Fixture: the graph after the rewrite has fired on the TopK11 node. -/
def gWafter : Graph :=
  replaceNode gW nodeTopK (makeTopK3Node gW nodeTopK ⟨0, .max, .none, 0, false⟩)

/-- Fixture: a TopK3 node, as produced by a previous run of the pass. -/
def nodeV3 : Node :=
  { id := 9, op := .TopK3 0 .max .none 0, inputs := [], friendlyName := "",
    rtInfo := [] }

/-- Fixture: an unstable TopK11 node consuming node id 5. -/
def cNodeB : Node :=
  { id := 1, op := .TopK11 0 .max .none 0 false,
    inputs := [⟨5, 0⟩, ⟨5, 1⟩], friendlyName := "", rtInfo := [] }

/-- Fixture: an unstable TopK11 node with id 5. -/
def cNodeA : Node :=
  { id := 5, op := .TopK11 0 .max .none 0 false, inputs := [],
    friendlyName := "", rtInfo := [] }

/-- Fixture: the producer-consumer graph in topological order, as
get_ordered_ops lists it: the producer (id 5) before its consumer. -/
def tGraph : Graph := [cNodeA, cNodeB]

/-- Fixture: a veto callback that inspects the input edges of a node. -/
def cVeto (n : Node) : Bool := n.inputs.any (fun r => r.node == 5)

end Fixtures

section ExecutorLemmas

variable {Attrs Descs Fmt Mem Ctx Exec : Type}

lemma filterLoop_sublist (config : ExecConfig Attrs Descs) (fltr : Fmt) (prio : String)
    (implementations : List (ExecutorImplementation Attrs Descs Fmt Mem Ctx Exec)) :
    List.Sublist (ExecutorFactory.filterLoop config fltr prio implementations)
      implementations := by
  induction implementations with
  | nil => simp [ExecutorFactory.filterLoop]
  | cons impl rest ih =>
    simp only [ExecutorFactory.filterLoop]
    split
    · exact ih.cons impl
    · split
      · exact ih.cons impl
      · split
        · exact (List.nil_sublist rest).cons₂ impl
        · exact ih.cons₂ impl

lemma filterLoop_dropLast_not_agnostic (config : ExecConfig Attrs Descs) (fltr : Fmt)
    (prio : String)
    (implementations : List (ExecutorImplementation Attrs Descs Fmt Mem Ctx Exec)) :
    ∀ impl ∈ (ExecutorFactory.filterLoop config fltr prio implementations).dropLast,
      impl.shapeAgnostic = false := by
  induction implementations with
  | nil => simp [ExecutorFactory.filterLoop]
  | cons a rest ih =>
    simp only [ExecutorFactory.filterLoop]
    split
    · exact ih
    · split
      · exact ih
      · split
        · simp
        · rename_i hnotag
          intro impl hmem
          cases hR : ExecutorFactory.filterLoop config fltr prio rest with
          | nil => rw [hR] at hmem; simp at hmem
          | cons b R =>
            rw [hR, List.dropLast_cons₂] at hmem
            rcases List.mem_cons.mp hmem with h | h
            · subst h
              simpa using hnotag
            · exact ih impl (hR ▸ h)

lemma filterLoop_stops (config : ExecConfig Attrs Descs) (fltr : Fmt) (prio : String)
    (a : ExecutorImplementation Attrs Descs Fmt Mem Ctx Exec)
    (hpass : prio = "" ∨ a.name = prio)
    (hsup : a.supports config fltr = true) (hag : a.shapeAgnostic = true)
    (pre post : List (ExecutorImplementation Attrs Descs Fmt Mem Ctx Exec)) :
    ExecutorFactory.filterLoop config fltr prio (pre ++ a :: post) =
      ExecutorFactory.filterLoop config fltr prio (pre ++ [a]) := by
  have hp : ¬(prio ≠ "" ∧ a.name ≠ prio) := by
    rcases hpass with h | h
    · exact fun hc => hc.1 h
    · exact fun hc => hc.2 h
  induction pre with
  | nil =>
    simp only [List.nil_append, ExecutorFactory.filterLoop]
    rw [if_neg hp, if_neg hp, if_neg (not_not_intro hsup), if_neg (not_not_intro hsup),
      if_pos hag, if_pos hag]
  | cons b pre ih =>
    simp only [List.cons_append, ExecutorFactory.filterLoop]
    split
    · exact ih
    · split
      · exact ih
      · split
        · rfl
        · exact congrArg (List.cons b) ih

lemma filterLoop_nil_of_prio_unmatched (config : ExecConfig Attrs Descs) (fltr : Fmt)
    (prio : String) (hprio : prio ≠ "")
    (implementations : List (ExecutorImplementation Attrs Descs Fmt Mem Ctx Exec))
    (h : ∀ impl ∈ implementations, impl.name ≠ prio) :
    ExecutorFactory.filterLoop config fltr prio implementations = [] := by
  induction implementations with
  | nil => rfl
  | cons a rest ih =>
    simp only [ExecutorFactory.filterLoop]
    rw [if_pos ⟨hprio, h a (List.mem_cons_self a rest)⟩]
    exact ih (fun impl hm => h impl (List.mem_cons_of_mem a hm))

lemma construct_eq
    (implementations : List (ExecutorImplementation Attrs Descs Fmt Mem Ctx Exec))
    (attrs : Attrs) (context : Ctx) (descriptors : Descs) (fltr : Fmt) (prio : String) :
    ExecutorFactory.construct implementations attrs context descriptors fltr prio =
      if (ExecutorFactory.filter implementations attrs descriptors fltr prio).isEmpty then
        none
      else
        some { m_attrs := attrs, m_context := context,
               m_suitableImplementations :=
                 ExecutorFactory.filter implementations attrs descriptors fltr prio } :=
  rfl

lemma make_eq_singleton (memToDescs : Mem → Descs)
    (f : ExecutorFactory Attrs Descs Fmt Mem Ctx Exec) (memory : Mem)
    (impl : ExecutorImplementation Attrs Descs Fmt Mem Ctx Exec)
    (hl : f.m_suitableImplementations = [impl]) :
    ExecutorFactory.make memToDescs f memory =
      match impl.requiresFallback ⟨memToDescs memory, f.m_attrs⟩ with
      | some fallbackConfig =>
        Executor.Fallback ⟨memToDescs memory, f.m_attrs⟩ fallbackConfig memory
          f.m_context impl.name
      | none => Executor.Simple (impl.create f.m_attrs memory f.m_context) := by
  obtain ⟨fa, fc, fl⟩ := f
  change fl = [impl] at hl
  subst hl
  rfl

lemma make_eq_multi (memToDescs : Mem → Descs)
    (f : ExecutorFactory Attrs Descs Fmt Mem Ctx Exec) (memory : Mem)
    (x y : ExecutorImplementation Attrs Descs Fmt Mem Ctx Exec)
    (rest : List (ExecutorImplementation Attrs Descs Fmt Mem Ctx Exec))
    (hl : f.m_suitableImplementations = x :: y :: rest) :
    ExecutorFactory.make memToDescs f memory =
      Executor.Variable memory f.m_attrs f.m_context f.m_suitableImplementations := by
  obtain ⟨fa, fc, fl⟩ := f
  change fl = x :: y :: rest at hl
  subst hl
  rfl

end ExecutorLemmas


section ExecutorClaims

variable {Attrs Descs Fmt Mem Ctx Exec : Type}

/-- C1: for every successfully constructed ExecutorFactory, make returns a
Variable executor exactly when the candidate list has two or more
elements; with exactly one candidate, make returns the Fallback executor
built from the realized config when that candidate requests a fallback on
the Config derived from the realized memory arguments and the stored
attrs, and otherwise the Simple executor produced by the candidate
factory — never a Variable executor. -/
theorem make_shape
    (implementations : List (ExecutorImplementation Attrs Descs Fmt Mem Ctx Exec))
    (attrs : Attrs) (context : Ctx) (descriptors : Descs) (fltr : Fmt) (prio : String)
    (f : ExecutorFactory Attrs Descs Fmt Mem Ctx Exec)
    (hf : ExecutorFactory.construct implementations attrs context descriptors fltr prio =
      some f)
    (memToDescs : Mem → Descs) (memory : Mem) :
    ((ExecutorFactory.make memToDescs f memory).isVariable = true ↔
      2 ≤ f.m_suitableImplementations.length)
    ∧ ∀ impl, f.m_suitableImplementations = [impl] →
        ((∀ fb, impl.requiresFallback ⟨memToDescs memory, f.m_attrs⟩ = some fb →
            ExecutorFactory.make memToDescs f memory =
              Executor.Fallback ⟨memToDescs memory, f.m_attrs⟩ fb memory f.m_context
                impl.name)
          ∧ (impl.requiresFallback ⟨memToDescs memory, f.m_attrs⟩ = none →
            ExecutorFactory.make memToDescs f memory =
              Executor.Simple (impl.create f.m_attrs memory f.m_context))) := by
  have hne : f.m_suitableImplementations ≠ [] := by
    rw [construct_eq] at hf
    split at hf
    · exact absurd hf (by simp)
    · rename_i hemp
      have h2 := Option.some.inj hf
      rw [← h2]
      simpa [List.isEmpty_iff] using hemp
  constructor
  · rcases hl : f.m_suitableImplementations with _ | ⟨x, _ | ⟨y, rest⟩⟩
    · exact absurd hl hne
    · rw [make_eq_singleton memToDescs f memory x hl]
      constructor
      · intro h
        exfalso
        rcases hfb : x.requiresFallback ⟨memToDescs memory, f.m_attrs⟩ with _ | fb <;>
          rw [hfb] at h <;> simp [Executor.isVariable] at h
      · intro h
        exact absurd h (by simp)
    · rw [make_eq_multi memToDescs f memory x y rest hl, hl]
      simp only [Executor.isVariable, List.length_cons]
      constructor
      · intro _
        omega
      · intro _
        trivial
  · intro impl hl
    refine ⟨?_, ?_⟩
    · intro fb hfb
      rw [make_eq_singleton memToDescs f memory impl hl, hfb]
    · intro hfb
      rw [make_eq_singleton memToDescs f memory impl hl, hfb]

/-- C1 witness: a factory constructed from a two-entry registry yields a
Variable executor. -/
theorem make_shape_witness :
    (ExecutorFactory.make (fun m => m) fW 0).isVariable = true :=
  (make_shape [implPlain, implSecond] () () 0 () "" fW rfl (fun m => m) 0).1.mpr
    (by decide)

/-- C2: construction fails exactly when filtering yields an empty
candidate list; a successfully constructed factory holds the non-empty
filtered candidate list; a non-empty priority override matching no
registry entry name makes construction fail in that same way. -/
theorem construct_fails_iff_empty
    (implementations : List (ExecutorImplementation Attrs Descs Fmt Mem Ctx Exec))
    (attrs : Attrs) (context : Ctx) (descriptors : Descs) (fltr : Fmt) (prio : String) :
    (ExecutorFactory.construct implementations attrs context descriptors fltr prio = none
      ↔ ExecutorFactory.filter implementations attrs descriptors fltr prio = [])
    ∧ (∀ f, ExecutorFactory.construct implementations attrs context descriptors fltr prio =
          some f →
        f.m_suitableImplementations ≠ [] ∧
        f.m_suitableImplementations =
          ExecutorFactory.filter implementations attrs descriptors fltr prio)
    ∧ (prio ≠ "" → (∀ impl ∈ implementations, impl.name ≠ prio) →
        ExecutorFactory.construct implementations attrs context descriptors fltr prio =
          none) := by
  refine ⟨?_, ?_, ?_⟩
  · rw [construct_eq]
    split
    · rename_i hemp
      simp [List.isEmpty_iff.mp hemp]
    · rename_i hemp
      simp only [List.isEmpty_iff] at hemp
      simp [hemp]
  · intro f hf
    rw [construct_eq] at hf
    split at hf
    · exact absurd hf (by simp)
    · rename_i hemp
      have h2 := Option.some.inj hf
      rw [← h2]
      simp only [List.isEmpty_iff] at hemp
      exact ⟨hemp, rfl⟩
  · intro hprio hnames
    have hnil : ExecutorFactory.filter implementations attrs descriptors fltr prio = [] :=
      filterLoop_nil_of_prio_unmatched ⟨descriptors, attrs⟩ fltr prio hprio
        implementations hnames
    rw [construct_eq, hnil]
    rfl

/-- C2 witness: a priority override naming no registry entry fails
construction. -/
theorem construct_fails_iff_empty_witness :
    ExecutorFactory.construct [implPlain] () () 0 () "missing" = none :=
  (construct_fails_iff_empty [implPlain] () () 0 () "missing").2.2 (by decide)
    (by decide)

/-- C3: a shape-agnostic candidate can only be the last element of the
candidate list (every earlier element has the flag unset), and once a
passing shape-agnostic entry is reached the registry entries after it are
never considered: the result does not depend on them. -/
theorem filter_shape_agnostic_stops
    (implementations pre post : List (ExecutorImplementation Attrs Descs Fmt Mem Ctx Exec))
    (attrs : Attrs) (descs : Descs) (fltr : Fmt) (prio : String)
    (a : ExecutorImplementation Attrs Descs Fmt Mem Ctx Exec)
    (hpass : prio = "" ∨ a.name = prio)
    (hsup : a.supports ⟨descs, attrs⟩ fltr = true)
    (hag : a.shapeAgnostic = true) :
    (∀ impl ∈ (ExecutorFactory.filter implementations attrs descs fltr prio).dropLast,
        impl.shapeAgnostic = false)
    ∧ ExecutorFactory.filter (pre ++ a :: post) attrs descs fltr prio =
        ExecutorFactory.filter (pre ++ [a]) attrs descs fltr prio :=
  ⟨filterLoop_dropLast_not_agnostic ⟨descs, attrs⟩ fltr prio implementations,
    filterLoop_stops ⟨descs, attrs⟩ fltr prio a hpass hsup hag pre post⟩

/-- C3 witness (spec scenario): with registry [A, B, C] queried at format
2, the entry after the supported shape-agnostic B is never considered. -/
theorem filter_shape_agnostic_stops_witness :
    ExecutorFactory.filter [implA, implB, implC] () 0 2 "" =
      ExecutorFactory.filter [implA, implB] () 0 2 "" :=
  (filter_shape_agnostic_stops [implA, implB, implC] [implA] [implC] () 0 2 "" implB
    (Or.inl rfl) rfl rfl).2

/-- C4: the candidate list is an order-preserving subsequence of the
registry: a sublist, so every candidate comes from the registry, each
registry entry contributes at most once, and relative (priority) order is
preserved. -/
theorem filter_sublist_of_registry
    (implementations : List (ExecutorImplementation Attrs Descs Fmt Mem Ctx Exec))
    (attrs : Attrs) (descs : Descs) (fltr : Fmt) (prio : String) :
    List.Sublist (ExecutorFactory.filter implementations attrs descs fltr prio)
      implementations :=
  filterLoop_sublist ⟨descs, attrs⟩ fltr prio implementations

/-- C5: getProperMemoryDescriptors is a pure query returning a list
parallel to the candidate list: same length, and the i-th entry is the
descs of the fallback config when the i-th candidate requests a fallback
on the Config of the argument descriptors and the stored attrs, and the
argument descriptors unchanged otherwise. -/
theorem getProperMemoryDescriptors_parallel
    (f : ExecutorFactory Attrs Descs Fmt Mem Ctx Exec) (descriptors : Descs) :
    (f.getProperMemoryDescriptors descriptors).length =
      f.m_suitableImplementations.length
    ∧ ∀ i : Nat,
        (f.getProperMemoryDescriptors descriptors)[i]? =
          (f.m_suitableImplementations[i]?).map (fun impl =>
            match impl.requiresFallback ⟨descriptors, f.m_attrs⟩ with
            | some fallbackConfig => fallbackConfig.descs
            | none => descriptors) := by
  constructor
  · simp [ExecutorFactory.getProperMemoryDescriptors]
  · intro i
    simp [ExecutorFactory.getProperMemoryDescriptors, List.getElem?_map]

end ExecutorClaims

section TopKLemmas

lemma applyCallback_of_cast_fail (transformationCallback : Node → Bool) (g : Graph)
    (n : Node) (h : n.asTopK11 = none) :
    applyCallback transformationCallback g n = (false, g) := by
  unfold applyCallback
  rw [h]

lemma applyCallback_of_gate (transformationCallback : Node → Bool) (g : Graph)
    (n : Node) (f : TopK11Fields) (hc : n.asTopK11 = some f)
    (h : f.stable = true ∨ transformationCallback n = true) :
    applyCallback transformationCallback g n = (false, g) := by
  have hcond : (f.stable || transformationCallback n) = true := by
    rcases h with h | h <;> simp [h]
  simp only [applyCallback, hc]
  rw [if_pos hcond]

lemma applyCallback_of_declined (transformationCallback : Node → Bool) (g : Graph)
    (n : Node) (h : declinedNode transformationCallback n = true) :
    applyCallback transformationCallback g n = (false, g) := by
  unfold declinedNode at h
  rcases hc : n.asTopK11 with _ | f
  · exact applyCallback_of_cast_fail transformationCallback g n hc
  · rw [hc] at h
    rcases Bool.or_eq_true_iff.mp h with h1 | h1
    · exact applyCallback_of_gate transformationCallback g n f hc (Or.inl h1)
    · exact applyCallback_of_gate transformationCallback g n f hc (Or.inr h1)

lemma applyCallback_of_not_declined (transformationCallback : Node → Bool) (g : Graph)
    (n : Node) (h : declinedNode transformationCallback n = false) :
    ∃ f, n.asTopK11 = some f ∧ f.stable = false ∧ transformationCallback n = false ∧
      applyCallback transformationCallback g n =
        (true, replaceNode g n (makeTopK3Node g n f)) := by
  unfold declinedNode at h
  rcases hc : n.asTopK11 with _ | f
  · rw [hc] at h
    exact absurd h (by simp)
  · rw [hc] at h
    rcases Bool.or_eq_false_iff.mp h with ⟨h1, h2⟩
    refine ⟨f, rfl, h1, h2, ?_⟩
    simp only [applyCallback, hc]
    rw [if_neg (by simp [h1, h2])]

lemma mem_le_maxId (g : Graph) : ∀ n ∈ g, n.id ≤ maxId g := by
  induction g with
  | nil => simp
  | cons a rest ih =>
    intro n hn
    rcases List.mem_cons.mp hn with h | h
    · subst h
      exact Nat.le_max_left _ _
    · exact Nat.le_trans (ih n h) (Nat.le_max_right _ _)

lemma mem_ne_freshId (g : Graph) (n : Node) (hn : n ∈ g) : n.id ≠ freshId g := by
  have := mem_le_maxId g n hn
  unfold freshId
  omega

lemma rewireNode_id (oldId newId : Nat) (m : Node) :
    (rewireNode oldId newId m).id = m.id := rfl

lemma asTopK11_rewire (oldId newId : Nat) (n : Node) :
    (rewireNode oldId newId n).asTopK11 = n.asTopK11 := rfl

lemma rewireNode_eq_self (i w : Nat) (n : Node)
    (h : ∀ r ∈ n.inputs, r.node ≠ i) :
    rewireNode i w n = n := by
  have h2 : ∀ r ∈ n.inputs, redirect i w r = r := by
    intro r hr
    unfold redirect
    rw [if_neg (h r hr)]
  have h3 : n.inputs.map (redirect i w) = n.inputs.map (fun r => r) :=
    List.map_congr_left h2
  have h4 : n.inputs.map (redirect i w) = n.inputs :=
    h3.trans (List.map_id' n.inputs)
  show { n with inputs := n.inputs.map (redirect i w) } = n
  rw [h4]

lemma mem_rewire_inputs (i w : Nat) (n : Node) (r2 : ValueRef)
    (h : r2 ∈ (rewireNode i w n).inputs) :
    r2.node = w ∨ ∃ r ∈ n.inputs, r2.node = r.node := by
  have h0 : r2 ∈ n.inputs.map (redirect i w) := h
  rcases List.mem_map.mp h0 with ⟨r, hr, hrr⟩
  subst hrr
  unfold redirect
  split
  · exact Or.inl rfl
  · exact Or.inr ⟨r, hr, rfl⟩

lemma declined_of_robust (transformationCallback : Node → Bool) (n : Node)
    (h : n.asTopK11 = none ∨ ∃ f, n.asTopK11 = some f ∧ f.stable = true) :
    declinedNode transformationCallback n = true := by
  unfold declinedNode
  rcases h with h | ⟨f, hf, hs⟩
  · rw [h]
  · simp only [hf]
    simp [hs]

lemma mem_replaceNode (g : Graph) (old new : Node) (n : Node)
    (h : n ∈ replaceNode g old new) :
    n = new ∨ ∃ m ∈ g, m.id ≠ old.id ∧ n = rewireNode old.id new.id m := by
  unfold replaceNode at h
  rcases List.mem_append.mp h with h | h
  · rcases List.mem_map.mp h with ⟨m, hm, hrw⟩
    have hmf := List.mem_filter.mp hm
    refine Or.inr ⟨m, hmf.1, ?_, hrw.symm⟩
    simpa using hmf.2
  · simp only [List.mem_singleton] at h
    exact Or.inl h

lemma replaceNode_ids (g : Graph) (old new : Node) :
    (replaceNode g old new).map (fun n => n.id) =
      (g.filter (fun m => m.id ≠ old.id)).map (fun n => n.id) ++ [new.id] := by
  unfold replaceNode
  rw [List.map_append, List.map_map]
  rfl

lemma replaceNode_nodup (g : Graph) (old new : Node)
    (hnodup : (g.map (fun n => n.id)).Nodup)
    (hfresh : ∀ m ∈ g, m.id ≠ new.id) :
    ((replaceNode g old new).map (fun n => n.id)).Nodup := by
  rw [replaceNode_ids]
  apply List.Nodup.append
  · exact List.Nodup.sublist (List.Sublist.map _ (List.filter_sublist g)) hnodup
  · simp
  · intro a ha hb
    simp only [List.mem_singleton] at hb
    subst hb
    rcases List.mem_map.mp ha with ⟨m, hm, hid⟩
    exact hfresh m (List.mem_of_mem_filter hm) hid

lemma declined_makeTopK3 (transformationCallback : Node → Bool) (g : Graph)
    (n : Node) (f : TopK11Fields) :
    declinedNode transformationCallback (makeTopK3Node g n f) = true := rfl

lemma rewired_mem_replaceNode (g : Graph) (old new : Node) (m : Node)
    (hm : m ∈ g) (hne : m.id ≠ old.id) :
    rewireNode old.id new.id m ∈ replaceNode g old new := by
  unfold replaceNode
  apply List.mem_append_left
  apply List.mem_map_of_mem
  exact List.mem_filter.mpr ⟨hm, by simpa using hne⟩

end TopKLemmas

section TopKPassLemmas

lemma runPassGo_topo_all_declined (transformationCallback : Node → Bool) :
    ∀ (ids : List Nat) (g : Graph),
      ids.Nodup →
      (g.map (fun nd => nd.id)).Nodup →
      (∀ j ∈ ids, ∃ n ∈ g, n.id = j) →
      List.Pairwise
        (fun a b => ∀ m ∈ g, m.id = a → ∀ r ∈ m.inputs, r.node ≠ b) ids →
      (∀ n ∈ g,
        (n.asTopK11 = none ∨ ∃ f, n.asTopK11 = some f ∧ f.stable = true)
        ∨ n.id ∈ ids
        ∨ (declinedNode transformationCallback n = true ∧ n.id ∉ ids ∧
            ∀ r ∈ n.inputs, r.node ∉ ids)) →
      ∀ n ∈ runPassGo transformationCallback ids g,
        declinedNode transformationCallback n = true := by
  intro ids
  induction ids with
  | nil =>
    intro g _ _ _ _ hcat n hn
    simp only [runPassGo] at hn
    rcases hcat n hn with h | h | h
    · exact declined_of_robust transformationCallback n h
    · simp at h
    · exact h.1
  | cons i rest ih =>
    intro g hids hnodup hpresent hpair hcat
    have hids2 := List.nodup_cons.mp hids
    have hpc := List.pairwise_cons.mp hpair
    simp only [runPassGo]
    rcases hfind : g.find? (fun nd => nd.id == i) with _ | m
    · exfalso
      obtain ⟨n0, hn0, hid0⟩ := hpresent i (List.mem_cons_self i rest)
      have hno := List.find?_eq_none.mp hfind n0 hn0
      simp [hid0] at hno
    · have hmmem : m ∈ g := List.mem_of_find?_eq_some hfind
      have hmid : m.id = i := by simpa using List.find?_some hfind
      simp only [hfind]
      cases hdec : declinedNode transformationCallback m with
      | true =>
        rw [applyCallback_of_declined transformationCallback g m hdec]
        refine ih g hids2.2 hnodup ?_ hpc.2 ?_
        · intro j hj
          exact hpresent j (List.mem_cons_of_mem i hj)
        · intro n hn
          rcases hcat n hn with h | h | h
          · exact Or.inl h
          · rcases List.mem_cons.mp h with h1 | h1
            · have hnm : n = m :=
                List.inj_on_of_nodup_map hnodup hn hmmem (by rw [h1, hmid])
              subst hnm
              refine Or.inr (Or.inr ⟨hdec, ?_, ?_⟩)
              · intro hc
                rw [hmid] at hc
                exact hids2.1 hc
              · intro r hr hrmem
                exact hpc.1 r.node hrmem n hmmem hmid r hr rfl
            · exact Or.inr (Or.inl h1)
          · exact Or.inr (Or.inr ⟨h.1,
              fun hc => h.2.1 (List.mem_cons_of_mem i hc),
              fun r hr hc => h.2.2 r hr (List.mem_cons_of_mem i hc)⟩)
      | false =>
        obtain ⟨f, hcast, hst, hvt, happ⟩ :=
          applyCallback_of_not_declined transformationCallback g m hdec
        rw [happ]
        have hfreshg : ∀ nd ∈ g, nd.id ≠ (makeTopK3Node g m f).id :=
          fun nd hnd => mem_ne_freshId g nd hnd
        have hfreshRest : ∀ j ∈ rest, j ≠ (makeTopK3Node g m f).id := by
          intro j hj
          obtain ⟨n0, hn0, hid0⟩ := hpresent j (List.mem_cons_of_mem i hj)
          rw [← hid0]
          exact hfreshg n0 hn0
        refine ih (replaceNode g m (makeTopK3Node g m f)) hids2.2
          (replaceNode_nodup g m (makeTopK3Node g m f) hnodup hfreshg) ?_ ?_ ?_
        · intro j hj
          obtain ⟨n0, hn0, hid0⟩ := hpresent j (List.mem_cons_of_mem i hj)
          have hne0 : n0.id ≠ m.id := by
            rw [hid0, hmid]
            intro hc
            exact hids2.1 (hc ▸ hj)
          exact ⟨rewireNode m.id (makeTopK3Node g m f).id n0,
            rewired_mem_replaceNode g m (makeTopK3Node g m f) n0 hn0 hne0, hid0⟩
        · refine List.Pairwise.imp_of_mem ?_ hpc.2
          intro a b ha hb hrel
          intro n2 hn2 hid2 r2 hr2
          rcases mem_replaceNode g m (makeTopK3Node g m f) n2 hn2 with
            h | ⟨m0, hm0, hne0, hrw⟩
          · exfalso
            subst h
            exact hfreshRest a ha hid2.symm
          · subst hrw
            rcases mem_rewire_inputs m.id (makeTopK3Node g m f).id m0 r2 hr2 with
              h | ⟨r, hrm, hrr⟩
            · rw [h]
              exact (hfreshRest b hb).symm
            · rw [hrr]
              exact hrel m0 hm0 hid2 r hrm
        · intro n2 hn2
          rcases mem_replaceNode g m (makeTopK3Node g m f) n2 hn2 with
            h | ⟨m0, hm0, hne0, hrw⟩
          · subst h
            exact Or.inl (Or.inl rfl)
          · subst hrw
            rcases hcat m0 hm0 with h | h | h
            · refine Or.inl ?_
              rcases h with h | ⟨f0, hf0, hs0⟩
              · exact Or.inl
                  ((asTopK11_rewire m.id (makeTopK3Node g m f).id m0).trans h)
              · exact Or.inr ⟨f0,
                  (asTopK11_rewire m.id (makeTopK3Node g m f).id m0).trans hf0, hs0⟩
            · rcases List.mem_cons.mp h with h1 | h1
              · exact absurd (h1.trans hmid.symm) hne0
              · exact Or.inr (Or.inl h1)
            · have hself : rewireNode m.id (makeTopK3Node g m f).id m0 = m0 := by
                refine rewireNode_eq_self m.id (makeTopK3Node g m f).id m0 ?_
                intro r hr hc
                exact h.2.2 r hr (by rw [hc, hmid]; exact List.mem_cons_self i rest)
              rw [hself]
              exact Or.inr (Or.inr ⟨h.1,
                fun hc => h.2.1 (List.mem_cons_of_mem i hc),
                fun r hr hc => h.2.2 r hr (List.mem_cons_of_mem i hc)⟩)

lemma runPassGo_unchanged (transformationCallback : Node → Bool) :
    ∀ (ids : List Nat) (g : Graph),
      (∀ n ∈ g, declinedNode transformationCallback n = true) →
      runPassGo transformationCallback ids g = g := by
  intro ids
  induction ids with
  | nil =>
    intro g _
    rfl
  | cons i rest ih =>
    intro g h
    simp only [runPassGo]
    rcases hfind : g.find? (fun nd => nd.id == i) with _ | m
    · simp only [hfind]
      exact ih g h
    · simp only [hfind]
      rw [applyCallback_of_declined transformationCallback g m
        (h m (List.mem_of_find?_eq_some hfind))]
      exact ih g h

lemma runPass_topo_all_declined (transformationCallback : Node → Bool) (g : Graph)
    (hnodup : (g.map (fun nd => nd.id)).Nodup)
    (htopo : List.Pairwise (fun a b => ∀ r ∈ a.inputs, r.node ≠ b.id) g) :
    ∀ n ∈ runPass transformationCallback g,
      declinedNode transformationCallback n = true := by
  unfold runPass
  refine runPassGo_topo_all_declined transformationCallback
    (g.map (fun nd => nd.id)) g hnodup hnodup ?_ ?_ ?_
  · intro j hj
    rcases List.mem_map.mp hj with ⟨n, hn, hid⟩
    exact ⟨n, hn, hid⟩
  · rw [List.pairwise_map]
    refine List.Pairwise.imp_of_mem ?_ htopo
    intro a b ha hb hrel
    intro m hm hid r hr
    have hma : m = a := List.inj_on_of_nodup_map hnodup hm ha hid
    subst hma
    exact hrel r hr
  · intro n hn
    exact Or.inr (Or.inl (List.mem_map_of_mem (fun nd => nd.id) hn))

end TopKPassLemmas

section TopKClaims

/-- C6: the rewrite callback declines — returns false with the graph
completely unchanged — whenever the node is not a TopK of version 11
(pattern/cast mismatch), or its stable flag is set, or the externally
supplied veto callback returns true. -/
theorem topk_callback_declines (transformationCallback : Node → Bool) (g : Graph)
    (n : Node)
    (h : n.asTopK11 = none ∨
      ∃ f, n.asTopK11 = some f ∧
        (f.stable = true ∨ transformationCallback n = true)) :
    applyCallback transformationCallback g n = (false, g) := by
  rcases h with h | ⟨f, hc, hgate⟩
  · exact applyCallback_of_cast_fail transformationCallback g n h
  · exact applyCallback_of_gate transformationCallback g n f hc hgate

/-- C6 witness: a stable TopK11 node is declined and the graph is
untouched. -/
theorem topk_callback_declines_witness :
    applyCallback (fun _ => false) [nodeStable] nodeStable = (false, [nodeStable]) :=
  topk_callback_declines (fun _ => false) [nodeStable] nodeStable
    (Or.inr ⟨⟨0, TopKMode.max, TopKSortType.none, 0, true⟩, rfl, Or.inl rfl⟩)

/-- C7: on an unstable, unvetoed TopK11 node of the graph the rewrite
fires: it reports true; the replacement carries the TopK3 operation with
the same axis, mode, sort type and index element type, the first two
input values, the original friendly name and runtime info; the original
node is absent from the resulting graph; every other node of the graph
survives with its edges into the original rewired onto the replacement
(a reference to the original moves to the same port of the
replacement). -/
theorem topk_rewrite_fires (transformationCallback : Node → Bool) (g : Graph)
    (n : Node) (f : TopK11Fields)
    (hcast : n.asTopK11 = some f) (hstable : f.stable = false)
    (hveto : transformationCallback n = false) (hmem : n ∈ g) :
    applyCallback transformationCallback g n =
      (true, replaceNode g n (makeTopK3Node g n f))
    ∧ (makeTopK3Node g n f).op =
        OpKind.TopK3 f.axis f.mode f.sortType f.indexElementType
    ∧ (makeTopK3Node g n f).inputs = n.inputs.take 2
    ∧ (makeTopK3Node g n f).friendlyName = n.friendlyName
    ∧ (makeTopK3Node g n f).rtInfo = n.rtInfo
    ∧ (∀ m ∈ replaceNode g n (makeTopK3Node g n f), m.id ≠ n.id)
    ∧ (∀ m ∈ g, m.id ≠ n.id →
        rewireNode n.id (makeTopK3Node g n f).id m ∈
          replaceNode g n (makeTopK3Node g n f))
    ∧ (∀ r : ValueRef, r.node = n.id →
        redirect n.id (makeTopK3Node g n f).id r =
          { node := (makeTopK3Node g n f).id, port := r.port }) := by
  have hdec : declinedNode transformationCallback n = false := by
    simp only [declinedNode, hcast]
    simp [hstable, hveto]
  obtain ⟨f2, hc2, _, _, happ⟩ :=
    applyCallback_of_not_declined transformationCallback g n hdec
  rw [hcast] at hc2
  obtain rfl := Option.some.inj hc2
  refine ⟨happ, rfl, rfl, rfl, rfl, ?_, ?_, ?_⟩
  · intro m hm
    rcases mem_replaceNode g n (makeTopK3Node g n f) m hm with h | ⟨m0, hm0, hne0, hrw⟩
    · subst h
      exact Ne.symm (mem_ne_freshId g n hmem)
    · subst hrw
      exact hne0
  · intro m hm hne
    exact rewired_mem_replaceNode g n (makeTopK3Node g n f) m hm hne
  · intro r hr
    unfold redirect
    rw [if_pos hr]

/-- C7 witness: the rewrite fires on a concrete unstable TopK11 node. -/
theorem topk_rewrite_fires_witness :
    applyCallback (fun _ => false) gW nodeTopK =
      (true, replaceNode gW nodeTopK
        (makeTopK3Node gW nodeTopK ⟨0, TopKMode.max, TopKSortType.none, 0, false⟩)) :=
  (topk_rewrite_fires (fun _ => false) gW nodeTopK
    ⟨0, TopKMode.max, TopKSortType.none, 0, false⟩ rfl rfl rfl (by decide)).1

/-- C9: the callback is total at its boundary: when the cast of the
matched root to TopK v11 fails it returns false immediately with the
graph unchanged, for every veto callback and every graph. -/
theorem topk_callback_total_on_cast_failure (transformationCallback : Node → Bool)
    (g : Graph) (n : Node) (h : n.asTopK11 = none) :
    applyCallback transformationCallback g n = (false, g) :=
  applyCallback_of_cast_fail transformationCallback g n h

/-- C9 witness: a non-TopK node is declined with the graph untouched. -/
theorem topk_callback_total_on_cast_failure_witness :
    applyCallback (fun _ => false) [nodeParam] nodeParam = (false, [nodeParam]) :=
  topk_callback_total_on_cast_failure (fun _ => false) [nodeParam] nodeParam rfl

/-- C10: whenever the rewrite fires, the matched node was a TopK11 with
the stable flag false and the veto returning false, and the resulting
graph replaces it by the node built from exactly its first two input
values and its axis, mode, sort type and index element type; the TopK3
operation has no stable field at all, so the stable attribute is not
transferred, and the gate guarantees it was false. -/
theorem topk_fired_from_first_two_inputs (transformationCallback : Node → Bool)
    (g g2 : Graph) (n : Node) (f : TopK11Fields)
    (hcast : n.asTopK11 = some f)
    (happ : applyCallback transformationCallback g n = (true, g2)) :
    f.stable = false ∧ transformationCallback n = false
    ∧ g2 = replaceNode g n (makeTopK3Node g n f)
    ∧ (makeTopK3Node g n f).inputs = n.inputs.take 2
    ∧ (makeTopK3Node g n f).op =
        OpKind.TopK3 f.axis f.mode f.sortType f.indexElementType := by
  cases hdec : declinedNode transformationCallback n with
  | true =>
    rw [applyCallback_of_declined transformationCallback g n hdec] at happ
    exact absurd happ (by simp)
  | false =>
    obtain ⟨f2, hc2, h1, h2, heq⟩ :=
      applyCallback_of_not_declined transformationCallback g n hdec
    rw [hcast] at hc2
    obtain rfl := Option.some.inj hc2
    rw [heq] at happ
    simp only [Prod.mk.injEq, true_and] at happ
    exact ⟨h1, h2, happ.symm, rfl, rfl⟩

/-- C10 witness: the fired rewrite on a concrete node uses the first two
inputs and the four attributes. -/
theorem topk_fired_from_first_two_inputs_witness :
    (⟨0, TopKMode.max, TopKSortType.none, 0, false⟩ : TopK11Fields).stable = false
    ∧ (fun _ => false : Node → Bool) nodeTopK = false
    ∧ gWafter = replaceNode gW nodeTopK
        (makeTopK3Node gW nodeTopK ⟨0, TopKMode.max, TopKSortType.none, 0, false⟩)
    ∧ (makeTopK3Node gW nodeTopK ⟨0, TopKMode.max, TopKSortType.none, 0, false⟩).inputs =
        nodeTopK.inputs.take 2
    ∧ (makeTopK3Node gW nodeTopK ⟨0, TopKMode.max, TopKSortType.none, 0, false⟩).op =
        OpKind.TopK3 0 TopKMode.max TopKSortType.none 0 :=
  topk_fired_from_first_two_inputs (fun _ => false) gW gWafter nodeTopK
    ⟨0, TopKMode.max, TopKSortType.none, 0, false⟩ rfl rfl

/-- C8: the TopK downgrade pass is idempotent. A replacement TopK3 node
never matches the TopK11 pattern again (the callback declines every node
carrying a TopK3 operation), and running the pass twice yields the same
graph as running it once, for every veto callback and every well-formed
graph: node ids pairwise distinct, and the graph list in the topological
order get_ordered_ops hands the driver (no node references a node listed
at its own position or later). The driver visits each node in its
then-current, already-rewired state, so every surviving node is declined
at its visit in what is already its final state, and the second sweep
changes nothing. -/
theorem topk_pass_idempotent (transformationCallback : Node → Bool) (g : Graph)
    (n : Node) (axis : Int) (mode : TopKMode) (sortType : TopKSortType)
    (indexElementType : Nat)
    (hop : n.op = OpKind.TopK3 axis mode sortType indexElementType)
    (hnodup : (g.map (fun nd => nd.id)).Nodup)
    (htopo : List.Pairwise (fun a b => ∀ r ∈ a.inputs, r.node ≠ b.id) g) :
    applyCallback transformationCallback g n = (false, g)
    ∧ runPass transformationCallback (runPass transformationCallback g) =
        runPass transformationCallback g := by
  constructor
  · apply applyCallback_of_cast_fail
    simp only [Node.asTopK11, hop]
  · exact runPassGo_unchanged transformationCallback
      ((runPass transformationCallback g).map (fun nd => nd.id))
      (runPass transformationCallback g)
      (runPass_topo_all_declined transformationCallback g hnodup htopo)

/-- C8 witness: idempotence on the concrete topologically ordered
producer-consumer graph under the input-inspecting veto: one sweep lowers
both nodes (the producer first, its consumer after rewiring), and a
second sweep is a no-op. -/
theorem topk_pass_idempotent_witness :
    applyCallback cVeto tGraph nodeV3 = (false, tGraph)
    ∧ runPass cVeto (runPass cVeto tGraph) = runPass cVeto tGraph :=
  topk_pass_idempotent cVeto tGraph nodeV3 0 TopKMode.max TopKSortType.none 0
    rfl (by decide) (by decide)

end TopKClaims
